import Mathlib

set_option maxHeartbeats 1000000
set_option synthInstance.maxHeartbeats 400000

namespace TsUpgrade

/-! Verification development for the ts-upgrade GitHub functions repository.

The TypeScript source is shallowly embedded as follows.  The Azure table
(the status ledger, table name upgradeProcess) is an association list of
entities keyed by (PartitionKey, RowKey) with the Azure insert-or-replace
and insert-or-merge write semantics; an entity is a record of optional
fields, a merge overwriting only the fields present in the written entry.
Every external collaborator call of main (the Octokit constructor, fork,
clone, checkout, log, branch creation, the upgrade routine, add, commit,
push, star, pull-request creation) is an action that either succeeds or
throws, driven by a fault environment.  The straight-line try block of
main is transcribed, in source order, as a script of instructions executed
sequentially and stopped at the first raised error; the catch block is
applied afterwards.  The run accumulates a trace of events (table writes
and attempted actions) so that ordering properties can be stated.

Promise timing is not modelled: the Promise.race in worker is driven by a
boolean oracle recording whether the sleep timer resolved first.
JavaScript never cancels the losing promise of a race, so the ledger
writes of main are complete in either case; only the value returned to
the caller differs. -/

/-- RunStatus enumeration from the source (enum Status), in declaration order. -/
inductive Status where
  | error
  | auth
  | fork
  | clone
  | branch
  | checkout
  | upgrade
  | add
  | commit
  | push
  | star
  | pr
  | done
deriving DecidableEq

/-- Numeric value persisted for each status: error = -1, auth = 0, then the
declaration order continues fork = 1 up to done = 11, exactly as the
TypeScript enum assigns ordinals. -/
def Status.toInt : Status → Int
  | .error => -1
  | .auth => 0
  | .fork => 1
  | .clone => 2
  | .branch => 3
  | .checkout => 4
  | .upgrade => 5
  | .add => 6
  | .commit => 7
  | .push => 8
  | .star => 9
  | .pr => 10
  | .done => 11

/-- A persisted entity: each field is optional because an insert-or-merge
entry mentions only some fields.  The version field stores the numeric
value of the TypeScript version enum (entGen.Int32). -/
structure Entity where
  owner : Option String := none
  repo : Option String := none
  branch : Option String := none
  version : Option Int := none
  status : Option Int := none
  lastStatus : Option Int := none
deriving DecidableEq

/-- A row key: (PartitionKey, RowKey) = (owner, run id). -/
abbrev Key := String × String

/-- The ledger table, an association list of keyed entities. -/
abbrev Table := List (Key × Entity)

/-- Lookup of the entity stored under a key. -/
def Table.find : Table → Key → Option Entity
  | [], _ => none
  | (k', e) :: rest, k => if k' = k then some e else Table.find rest k

/-- Azure merge semantics on one field: a field present in the written
entry overwrites, an absent field keeps the stored value. -/
def mergeField {α : Type} (old new : Option α) : Option α :=
  match new with
  | some v => some v
  | none => old

/-- Azure merge semantics on a whole entity. -/
def mergeEntity (old new : Entity) : Entity :=
  { owner := mergeField old.owner new.owner
    repo := mergeField old.repo new.repo
    branch := mergeField old.branch new.branch
    version := mergeField old.version new.version
    status := mergeField old.status new.status
    lastStatus := mergeField old.lastStatus new.lastStatus }

/-- tableService.insertOrReplaceEntity: the stored entity under the key is
replaced wholesale by the written entry (inserted when absent). -/
def insertOrReplaceEntity : Table → Key → Entity → Table
  | [], k, e => [(k, e)]
  | (k', e') :: rest, k, e =>
    if k' = k then (k, e) :: rest else (k', e') :: insertOrReplaceEntity rest k e

/-- tableService.insertOrMergeEntity: the written entry is merged into the
stored entity under the key (inserted when absent). -/
def insertOrMergeEntity : Table → Key → Entity → Table
  | [], k, e => [(k, e)]
  | (k', e') :: rest, k, e =>
    if k' = k then (k, mergeEntity e' e) :: rest else (k', e') :: insertOrMergeEntity rest k e

/-- The entry written by insertOrMergeStatus: status and lastStatus both set
to the given status value (RowKey and PartitionKey address the row). -/
def statusEntry (s : Status) : Entity :=
  { status := some s.toInt, lastStatus := some s.toInt }

/-- The entry written by insertOrMergeStatusWithoutLast: only status is set;
lastStatus is absent from the entry, so a merge leaves it untouched. -/
def statusEntryWithoutLast (s : Status) : Entity :=
  { status := some s.toInt }

/-- insertOrMergeStatus from the source: merge status = lastStatus = s into
row (owner, id). -/
def insertOrMergeStatus (t : Table) (id owner : String) (s : Status) : Table :=
  insertOrMergeEntity t (owner, id) (statusEntry s)

/-- insertOrMergeStatusWithoutLast from the source: merge status = s only
into row (owner, id). -/
def insertOrMergeStatusWithoutLast (t : Table) (id owner : String) (s : Status) : Table :=
  insertOrMergeEntity t (owner, id) (statusEntryWithoutLast s)

/-- A commit as returned by git.log: only the tree identifier matters here. -/
structure Commit where
  tree : String
deriving DecidableEq

/-- The external collaborator calls performed by main, in source order. -/
inductive Action where
  | octokitNew
  | createFork
  | gitClone
  | checkoutBase
  | gitLog
  | gitBranch
  | checkoutWork
  | upgradeProject
  | gitAdd
  | gitCommit
  | gitPush
  | starRepo
  | pullsCreate
deriving DecidableEq

/-- An error raised during a run: a collaborator call threw, or the
runtime TypeError raised by slicing an undefined tree identifier. -/
inductive RunError where
  | actionFailure (a : Action)
  | typeError
deriving DecidableEq

/-- One observable event of a run: the table creation, a ledger write
(replace or merge, with the written entry), or an attempted action. -/
inductive Event where
  | createTable
  | replaceWrite (k : Key) (e : Entity)
  | mergeWrite (k : Key) (e : Entity)
  | action (a : Action)
deriving DecidableEq

/-- Run state threaded through main: the event trace, the ledger table and
the derived working-branch name once computed. -/
structure St where
  events : List Event
  table : Table
  workBranch : Option String
deriving DecidableEq

/-- Environment of a run: which collaborator actions throw, the commit
list returned by git.log, the pull-request url returned by the host, and
the numeric value of the Latest sentinel of the version enum. -/
structure Env where
  faults : List Action
  commits : List Commit
  prUrl : String
  tsLatest : Int
deriving DecidableEq

/-- The Options interface of the source: caller-supplied run parameters. -/
structure Options where
  authToken : String
  connectionString : String
  owner : String
  repo : String
  id : Option String := none
  branch : Option String := none
  version : Option Int := none
deriving DecidableEq

/-- JavaScript truthiness of the id guard: the empty string is falsy, so a
run with an empty id behaves exactly like a run with no id. -/
def effId (o : Options) : Option String :=
  match o.id with
  | some s => if s = "" then none else some s
  | none => none

/-- Destructuring default of main: branch defaults to master. -/
def resolvedBranch (o : Options) : String :=
  o.branch.getD "master"

/-- Destructuring default of main: version defaults to the Latest sentinel. -/
def resolvedVersion (env : Env) (o : Options) : Int :=
  o.version.getD env.tsLatest

/-- Working-branch name derivation from the source: the literal prefix
followed by the first 8 characters of the tree identifier. -/
def branchName (sha : String) : String :=
  "ts-upgrade-at-" ++ sha.take 8

/-- One instruction of the transcribed try block of main. -/
inductive Instr where
  | writeStatus (s : Status)
  | run (a : Action)
  | runIf (c : Bool) (a : Action)
  | computeSha
deriving DecidableEq

/-- The try block of main, line by line in source order.  Every writeStatus
is guarded in the source by the id check; computeSha is the pure
computation of the tree identifier, its slice and the branch name, which
throws a TypeError when the commit log is empty.  The checkout of the base
branch is guarded by the truthiness of the branch string. -/
def script (branchTruthy : Bool) : List Instr :=
  [ .run .octokitNew,
    .writeStatus .fork,
    .run .createFork,
    .writeStatus .clone,
    .run .gitClone,
    .writeStatus .branch,
    .runIf branchTruthy .checkoutBase,
    .run .gitLog,
    .computeSha,
    .run .gitBranch,
    .writeStatus .checkout,
    .run .checkoutWork,
    .writeStatus .upgrade,
    .run .upgradeProject,
    .writeStatus .add,
    .run .gitAdd,
    .writeStatus .commit,
    .run .gitCommit,
    .writeStatus .push,
    .run .gitPush,
    .writeStatus .star,
    .run .starRepo,
    .writeStatus .pr,
    .run .pullsCreate,
    .writeStatus .done ]

/-- Execute one instruction.  An action is recorded in the trace when
attempted and throws exactly when the environment lists it as faulty; a
status write happens only when an id was supplied; computeSha throws a
TypeError when the commit log is empty, otherwise records the derived
working-branch name. -/
def execInstr (env : Env) (o : Options) : Instr → St → St × Option RunError
  | .run a, s =>
    let s' : St := { s with events := s.events ++ [.action a] }
    if a ∈ env.faults then (s', some (.actionFailure a)) else (s', none)
  | .runIf c a, s =>
    if c then
      let s' : St := { s with events := s.events ++ [.action a] }
      if a ∈ env.faults then (s', some (.actionFailure a)) else (s', none)
    else (s, none)
  | .writeStatus st, s =>
    match effId o with
    | some i =>
      ({ s with events := s.events ++ [.mergeWrite (o.owner, i) (statusEntry st)]
                table := insertOrMergeStatus s.table i o.owner st }, none)
    | none => (s, none)
  | .computeSha, s =>
    match env.commits.head? with
    | some c => ({ s with workBranch := some (branchName c.tree) }, none)
    | none => (s, some .typeError)

/-- Execute a list of instructions in order, stopping at the first raised
error; the state reached so far (its writes included) is kept. -/
def execScript (env : Env) (o : Options) : List Instr → St → St × Option RunError
  | [], s => (s, none)
  | i :: rest, s =>
    match execInstr env o i s with
    | (s', none) => execScript env o rest s'
    | (s', some e) => (s', some e)

/-- The fresh record written at run start (source lines 103 to 113): every
parameter field plus status = lastStatus = auth. -/
def initEntry (env : Env) (o : Options) : Entity :=
  { owner := some o.owner
    repo := some o.repo
    branch := some (resolvedBranch o)
    version := some (resolvedVersion env o)
    status := some Status.auth.toInt
    lastStatus := some Status.auth.toInt }

/-- The id-guarded initialisation of main: ensure the table exists, then
insert-or-replace the fresh record.  Without an id nothing happens. -/
def initState (env : Env) (o : Options) (t : Table) : St :=
  match effId o with
  | some i =>
    { events := [.createTable, .replaceWrite (o.owner, i) (initEntry env o)]
      table := insertOrReplaceEntity t (o.owner, i) (initEntry env o)
      workBranch := none }
  | none => { events := [], table := t, workBranch := none }

/-- The try block of main run from the initialised state. -/
def tryBody (env : Env) (o : Options) (t : Table) : St × Option RunError :=
  execScript env o (script (resolvedBranch o != "")) (initState env o t)

/-- main from the source: initialise the ledger when an id is present, run
the try block, and on success return the pull-request url; on failure the
catch block merges status = error without touching lastStatus (id-guarded)
and re-raises the same error. -/
def main (env : Env) (o : Options) (t : Table) : St × Except RunError String :=
  match tryBody env o t with
  | (s, none) => (s, .ok env.prUrl)
  | (s, some e) =>
    match effId o with
    | some i =>
      ({ s with events := s.events ++ [.mergeWrite (o.owner, i) (statusEntryWithoutLast .error)]
                table := insertOrMergeStatusWithoutLast s.table i o.owner .error }, .error e)
    | none => (s, .error e)

/-- worker from the source: Promise.race of main against sleep timeout.
timerWins is the race oracle: true when the sleep resolved first.  The race
does not cancel main, so the final state is that of the complete run in
either case; when the timer wins the caller receives undefined (ok none),
otherwise the settled outcome of main. -/
def worker (env : Env) (o : Options) (timerWins : Bool) (t : Table) :
    St × Except RunError (Option String) :=
  match main env o t with
  | (s, r) => (s, if timerWins then .ok none else r.map some)

/-- queryEntities of the status-query function: all entities of rows whose
RowKey equals the queried id. -/
def queryEntities (t : Table) (idv : String) : List Entity :=
  (t.filter fun ke => ke.1.2 == idv).map fun ke => ke.2

/-- The body of the status-query http trigger: the first matching entity,
or undefined when the result list is empty (entries and entries.length and
entries[0] or undefined). -/
def statusQueryTrigger (t : Table) (idv : String) : Option Entity :=
  match queryEntities t idv with
  | [] => none
  | e :: _ => some e

/-- The status value that the ledger write issued immediately before each
action carries: the initial record carries auth before the Octokit
constructor, and each later insertOrMergeStatus call precedes the listed
actions in the source. -/
def statusBefore : Action → Status
  | .octokitNew => .auth
  | .createFork => .fork
  | .gitClone => .clone
  | .checkoutBase => .branch
  | .gitLog => .branch
  | .gitBranch => .branch
  | .checkoutWork => .checkout
  | .upgradeProject => .upgrade
  | .gitAdd => .add
  | .gitCommit => .commit
  | .gitPush => .push
  | .starRepo => .star
  | .pullsCreate => .pr

/-- Whether an event is a ledger operation (table creation or row write)
rather than a collaborator action. -/
def isLedgerWrite : Event → Bool
  | .action _ => false
  | _ => true

/-- The ledger operations of a trace, in order. -/
def ledgerWrites (evs : List Event) : List Event :=
  evs.filter isLedgerWrite

/-- The lastStatus values carried by the ledger writes of a trace, in
order; writes whose entry omits lastStatus contribute nothing. -/
def writtenLastStatuses (evs : List Event) : List Int :=
  evs.filterMap fun ev =>
    match ev with
    | .replaceWrite _ e => e.lastStatus
    | .mergeWrite _ e => e.lastStatus
    | _ => none

/-- The terminal status a settled run records: done on success, error on
failure. -/
def terminalOf : Except RunError String → Status
  | .ok _ => .done
  | .error _ => .error

/-- The twelve success-path status values in workflow order. -/
def successStatuses : List Status :=
  [.auth, .fork, .clone, .branch, .checkout, .upgrade, .add, .commit, .push, .star, .pr, .done]

/-- Concrete environment in which the transformation step throws. -/
def cEnvU : Env :=
  { faults := [.upgradeProject], commits := [⟨"cafebabe12"⟩]
    prUrl := "https://api.github.example/pr/1", tsLatest := 99 }

/-- Concrete environment in which every step succeeds. -/
def cEnvOk : Env :=
  { faults := [], commits := [⟨"cafebabe12"⟩]
    prUrl := "https://api.github.example/pr/1", tsLatest := 99 }

/-- Concrete environment with an empty commit log and no faulty action. -/
def cEnvNoLog : Env :=
  { faults := [], commits := []
    prUrl := "https://api.github.example/pr/1", tsLatest := 99 }

/-- Concrete run parameters of the scenario runs: owner acme, repo widgets,
branch main, run id r1. -/
def cOpts : Options :=
  { authToken := "tok", connectionString := "cs", owner := "acme", repo := "widgets"
    id := some "r1", branch := some "main" }

/-- Concrete run parameters with no run id supplied. -/
def cOptsNoId : Options :=
  { authToken := "tok", connectionString := "cs", owner := "acme", repo := "widgets"
    id := none, branch := some "main" }

/-- A concrete stored entity used to exercise the status query. -/
def wEnt : Entity :=
  { owner := some "acme", repo := some "widgets", status := some 11, lastStatus := some 11 }

/-- A concrete one-row ledger used to exercise the status query. -/
def wTable : Table := [(("acme", "r1"), wEnt)]

/-- Looking up the key just written by an insert-or-replace yields exactly
the written entry. -/
@[simp]
theorem find_insertOrReplace (t : Table) (k : Key) (e : Entity) :
    Table.find (insertOrReplaceEntity t k e) k = some e := by
  induction t with
  | nil => simp [insertOrReplaceEntity, Table.find]
  | cons he rest ih =>
    obtain ⟨k', e'⟩ := he
    by_cases h : k' = k
    · simp [insertOrReplaceEntity, h, Table.find]
    · simp [insertOrReplaceEntity, h, Table.find, ih]

/-- Looking up the key just written by an insert-or-merge yields the merge
of the previously stored entity (when any) with the written entry. -/
@[simp]
theorem find_insertOrMerge (t : Table) (k : Key) (e : Entity) :
    Table.find (insertOrMergeEntity t k e) k =
      some (match Table.find t k with
            | none => e
            | some old => mergeEntity old e) := by
  induction t with
  | nil => simp [insertOrMergeEntity, Table.find]
  | cons he rest ih =>
    obtain ⟨k', e'⟩ := he
    by_cases h : k' = k
    · simp [insertOrMergeEntity, h, Table.find]
    · simp [insertOrMergeEntity, h, Table.find, ih]

/-- Claim C5: invoking start-run a second time with the same run-id
replaces the ledger record fully: after the initialisation write of any
invocation, whatever the prior table content t, the row (owner, id) is
exactly the fresh record with every run parameter overwritten and both
status and lastStatus reset to Auth; no field of a prior record survives. -/
theorem c5_startRun_overwrites (env : Env) (o : Options) (t : Table) (i : String)
    (hid : effId o = some i) :
    Table.find (initState env o t).table (o.owner, i) =
      some { owner := some o.owner
             repo := some o.repo
             branch := some (resolvedBranch o)
             version := some (resolvedVersion env o)
             status := some Status.auth.toInt
             lastStatus := some Status.auth.toInt } := by
  simp [initState, hid, initEntry]

/-- Witness for C5 at a concrete second invocation: re-initialising over a
ledger that already holds a progressed record for (acme, r1) yields the
fresh Auth record. -/
theorem c5_startRun_overwrites_witness :
    Table.find (initState cEnvOk cOpts wTable).table ("acme", "r1") =
      some { owner := some "acme"
             repo := some "widgets"
             branch := some "main"
             version := some 99
             status := some 0
             lastStatus := some 0 } := by
  have h := c5_startRun_overwrites cEnvOk cOpts wTable "r1" (by decide)
  simpa using h

/-- Claim C8: the status query filters the ledger by the queried run-id and
returns the single matching record, or an absent result (none, not an
error) when no row with that id exists, in particular for an id never
submitted. -/
theorem c8_status_query (t : Table) (idv : String) :
    (statusQueryTrigger t idv = none ↔ queryEntities t idv = []) ∧
    (∀ e l, queryEntities t idv = e :: l → statusQueryTrigger t idv = some e) ∧
    ((∀ ke ∈ t, ke.1.2 ≠ idv) → queryEntities t idv = []) := by
  refine ⟨?_, ?_, ?_⟩
  · cases h : queryEntities t idv <;> simp [statusQueryTrigger, h]
  · intro e l h
    simp [statusQueryTrigger, h]
  · intro h
    simp only [queryEntities, List.map_eq_nil_iff, List.filter_eq_nil_iff]
    intro ke hke
    simpa using h ke hke

/-- Witness for C8: on a concrete one-row ledger, querying the stored id
returns the record and querying a never-submitted id returns none. -/
theorem c8_status_query_witness :
    statusQueryTrigger wTable "zzz" = none ∧ statusQueryTrigger wTable "r1" = some wEnt := by
  constructor
  · exact (c8_status_query wTable "zzz").1.mpr ((c8_status_query wTable "zzz").2.2 (by decide))
  · exact (c8_status_query wTable "r1").2.1 wEnt [] (by decide)

/-- Running any script without a supplied run id leaves the ledger table
untouched and adds no ledger operation to the trace. -/
theorem execScript_no_id (env : Env) (o : Options) (hid : effId o = none) :
    ∀ (instrs : List Instr) (s : St),
      (execScript env o instrs s).1.table = s.table ∧
      ledgerWrites (execScript env o instrs s).1.events = ledgerWrites s.events := by
  intro instrs
  induction instrs with
  | nil => intro s; simp [execScript]
  | cons instr rest ih =>
    intro s
    cases instr with
    | writeStatus st =>
      simpa [execScript, execInstr, hid] using ih s
    | run a =>
      by_cases hf : a ∈ env.faults
      · simp [execScript, execInstr, hf, ledgerWrites, isLedgerWrite]
      · have h := ih { s with events := s.events ++ [.action a] }
        simp only [execScript, execInstr, hf, if_neg, ite_false] at h ⊢
        refine ⟨h.1, ?_⟩
        rw [h.2]
        simp [ledgerWrites, isLedgerWrite]
    | runIf c a =>
      cases c with
      | false => simpa [execScript, execInstr] using ih s
      | true =>
        by_cases hf : a ∈ env.faults
        · simp [execScript, execInstr, hf, ledgerWrites, isLedgerWrite]
        · have h := ih { s with events := s.events ++ [.action a] }
          simp only [execScript, execInstr, hf, if_neg, ite_false, if_true] at h ⊢
          refine ⟨h.1, ?_⟩
          rw [h.2]
          simp [ledgerWrites, isLedgerWrite]
    | computeSha =>
      cases hc : env.commits.head? with
      | none => simp [execScript, execInstr, hc]
      | some c =>
        simpa [execScript, execInstr, hc] using ih { s with workBranch := some (branchName c.tree) }

/-- Claim C6: a run invoked without a run-id never creates, writes or makes
queryable any ledger row, whatever the outcome: the final table equals the
initial one, the trace holds no ledger operation at all (no table creation,
no replace, no merge, in particular no error write), and every status query
answers exactly as before the run. -/
theorem c6_no_id_no_ledger (env : Env) (o : Options) (t : Table) (h : o.id = none) :
    (main env o t).1.table = t ∧
    ledgerWrites (main env o t).1.events = [] ∧
    ∀ s, statusQueryTrigger (main env o t).1.table s = statusQueryTrigger t s := by
  have hid : effId o = none := by simp [effId, h]
  have hinit : initState env o t = { events := [], table := t, workBranch := none } := by
    simp [initState, hid]
  have hexec := execScript_no_id env o hid (script (resolvedBranch o != "")) (initState env o t)
  rw [hinit] at hexec
  have hmain : (main env o t).1.table = t ∧ ledgerWrites (main env o t).1.events = [] := by
    rcases htb : tryBody env o t with ⟨s, r⟩
    have hs : s.table = t ∧ ledgerWrites s.events = [] := by
      have := hexec
      rw [show execScript env o (script (resolvedBranch o != ""))
            { events := [], table := t, workBranch := none } = (s, r) from by
        rw [← htb, tryBody, hinit]] at this
      simpa [ledgerWrites] using this
    cases r with
    | none => simpa [main, htb] using hs
    | some e => simpa [main, htb, hid] using hs
  exact ⟨hmain.1, hmain.2, fun s => by rw [hmain.1]⟩

/-- Witness for C6: the concrete no-id run (success environment) leaves the
empty ledger empty. -/
theorem c6_no_id_no_ledger_witness :
    (main cEnvOk cOptsNoId []).1.table = [] ∧
    ledgerWrites (main cEnvOk cOptsNoId []).1.events = [] := by
  have h := c6_no_id_no_ledger cEnvOk cOptsNoId [] (by decide)
  exact ⟨h.1, h.2.1⟩

/-- In every run in which no action faults and the commit log is nonempty,
the derived working-branch name is computed from the tree identifier of the
most recent commit. -/
theorem workBranch_eval (env : Env) (o : Options) (t : Table) (c : Commit) (cs : List Commit)
    (hf : env.faults = []) (hc : env.commits = c :: cs) :
    (main env o t).1.workBranch = some (branchName c.tree) := by
  cases hbv : (resolvedBranch o != "") <;> cases hid : effId o <;>
    simp [main, tryBody, script, execScript, execInstr, initState, hid, hf, hbv, hc]

/-- Claim C7: the working branch name is the literal prefix followed by the
first 8 characters of the tree identifier of the most recent commit of the
checked-out branch, and two runs over an identical source tree (identical
commit log) derive the identical working-branch name whatever their other
parameters. -/
theorem c7_branch_name (env1 env2 : Env) (o1 o2 : Options) (t1 t2 : Table)
    (c : Commit) (cs : List Commit)
    (h1 : env1.commits = c :: cs) (h2 : env2.commits = env1.commits)
    (hf1 : env1.faults = []) (hf2 : env2.faults = []) :
    (main env1 o1 t1).1.workBranch = some ("ts-upgrade-at-" ++ c.tree.take 8) ∧
    (main env2 o2 t2).1.workBranch = (main env1 o1 t1).1.workBranch := by
  have e1 := workBranch_eval env1 o1 t1 c cs hf1 h1
  have e2 := workBranch_eval env2 o2 t2 c cs hf2 (h2.trans h1)
  refine ⟨?_, by rw [e1, e2]⟩
  rw [e1]
  rfl

/-- Witness for C7: with the concrete tree identifier the derived name is
the expected literal, and a second run with other parameters agrees. -/
theorem c7_branch_name_witness :
    (main cEnvOk cOpts []).1.workBranch = some "ts-upgrade-at-cafebabe" ∧
    (main cEnvOk cOptsNoId wTable).1.workBranch = (main cEnvOk cOpts []).1.workBranch := by
  have h := c7_branch_name cEnvOk cEnvOk cOpts cOptsNoId [] wTable ⟨"cafebabe12"⟩ []
    (by decide) rfl (by decide) (by decide)
  exact ⟨by rw [h.1]; rfl, h.2⟩

/-- Final ledger state of a run with a run id whose single faulty action is
a: the run re-raises the failure of a, the row status is Error, and the row
lastStatus is the status value written immediately before a. -/
theorem singleFault_final (env : Env) (o : Options) (t : Table) (a : Action) (i : String)
    (hid : effId o = some i) (hf : env.faults = [a])
    (hc : env.commits ≠ []) (hb : resolvedBranch o ≠ "") :
    (main env o t).2 = .error (.actionFailure a) ∧
    ∃ ent, Table.find (main env o t).1.table (o.owner, i) = some ent ∧
      ent.status = some Status.error.toInt ∧
      ent.lastStatus = some (statusBefore a).toInt := by
  obtain ⟨c, cs, hcc⟩ : ∃ c cs, env.commits = c :: cs := by
    cases hx : env.commits with
    | nil => exact absurd hx hc
    | cons c cs => exact ⟨c, cs, rfl⟩
  have hbv : (resolvedBranch o != "") = true := by simpa using hb
  cases a <;>
    simp [main, tryBody, script, execScript, execInstr, initState, hid, hf, hbv, hcc,
      insertOrMergeStatus, insertOrMergeStatusWithoutLast, mergeEntity, mergeField,
      statusEntry, statusEntryWithoutLast, initEntry, statusBefore, Status.toInt]

/-- Counterexample to claim C1 as stated: in the scenario run (owner acme,
repo widgets, branch main, runId r1) whose transformation step throws, the
ledger row (acme, r1) has status = Error but lastStatus = Upgrade (5), not
the predecessor value Checkout (4) claimed by the specification. -/
theorem c1_counterexample :
    (Table.find (main cEnvU cOpts []).1.table ("acme", "r1")).bind Entity.status =
      some Status.error.toInt ∧
    (Table.find (main cEnvU cOpts []).1.table ("acme", "r1")).bind Entity.lastStatus =
      some Status.upgrade.toInt ∧
    ¬ (Table.find (main cEnvU cOpts []).1.table ("acme", "r1")).bind Entity.lastStatus =
      some Status.checkout.toInt := by
  decide

/-- Claim C1 (amended): for every run supplied with a run-id whose single
faulty step is the action a, after the failure the ledger row has status =
Error and lastStatus equals the status value of the failing step itself,
the one recorded just before its action ran (Auth when the failure is
before the first step); in the scenario run where the transformation step
throws, the row (acme, r1) has status = Error and lastStatus = Upgrade. -/
theorem c1_failure_lastStatus (env : Env) (o : Options) (t : Table) (a : Action) (i : String)
    (hid : effId o = some i) (hf : env.faults = [a])
    (hc : env.commits ≠ []) (hb : resolvedBranch o ≠ "") :
    (main env o t).2 = .error (.actionFailure a) ∧
    ∃ ent, Table.find (main env o t).1.table (o.owner, i) = some ent ∧
      ent.status = some Status.error.toInt ∧
      ent.lastStatus = some (statusBefore a).toInt :=
  singleFault_final env o t a i hid hf hc hb

/-- Witness for C1 (amended) at the scenario run: transformation throws,
row (acme, r1) ends with status = Error and lastStatus = Upgrade. -/
theorem c1_failure_lastStatus_witness :
    (main cEnvU cOpts []).2 = .error (.actionFailure .upgradeProject) ∧
    ∃ ent, Table.find (main cEnvU cOpts []).1.table ("acme", "r1") = some ent ∧
      ent.status = some Status.error.toInt ∧
      ent.lastStatus = some (statusBefore .upgradeProject).toInt :=
  c1_failure_lastStatus cEnvU cOpts [] .upgradeProject "r1"
    (by decide) (by decide) (by decide) (by decide)

/-- Claim C9: for every step after record initialisation in a run supplied
with a run-id, the ledger write carrying that step status value appears in
the trace strictly before the action of the step, and consequently when the
action for status value X throws, the row lastStatus equals X itself, the
value recorded just before the failing call, not the value of the previous
step. -/
theorem c9_write_before_action (env : Env) (o : Options) (t : Table) (a : Action) (i : String)
    (hid : effId o = some i) (hf : env.faults = [a]) (hna : a ≠ .octokitNew)
    (hc : env.commits ≠ []) (hb : resolvedBranch o ≠ "") :
    (∃ ent, Table.find (main env o t).1.table (o.owner, i) = some ent ∧
      ent.status = some Status.error.toInt ∧
      ent.lastStatus = some (statusBefore a).toInt) ∧
    ∃ n m, n < m ∧
      (main env o t).1.events.get? n =
        some (Event.mergeWrite (o.owner, i) (statusEntry (statusBefore a))) ∧
      (main env o t).1.events.get? m = some (Event.action a) := by
  refine ⟨(singleFault_final env o t a i hid hf hc hb).2, ?_⟩
  obtain ⟨c, cs, hcc⟩ : ∃ c cs, env.commits = c :: cs := by
    cases hx : env.commits with
    | nil => exact absurd hx hc
    | cons c cs => exact ⟨c, cs, rfl⟩
  have hbv : (resolvedBranch o != "") = true := by simpa using hb
  cases a with
  | octokitNew => exact absurd rfl hna
  | createFork =>
    refine ⟨3, 4, by omega, ?_, ?_⟩ <;>
      simp [main, tryBody, script, execScript, execInstr, initState, hid, hf, hbv, hcc, statusBefore, List.get?]
  | gitClone =>
    refine ⟨5, 6, by omega, ?_, ?_⟩ <;>
      simp [main, tryBody, script, execScript, execInstr, initState, hid, hf, hbv, hcc, statusBefore, List.get?]
  | checkoutBase =>
    refine ⟨7, 8, by omega, ?_, ?_⟩ <;>
      simp [main, tryBody, script, execScript, execInstr, initState, hid, hf, hbv, hcc, statusBefore, List.get?]
  | gitLog =>
    refine ⟨7, 9, by omega, ?_, ?_⟩ <;>
      simp [main, tryBody, script, execScript, execInstr, initState, hid, hf, hbv, hcc, statusBefore, List.get?]
  | gitBranch =>
    refine ⟨7, 10, by omega, ?_, ?_⟩ <;>
      simp [main, tryBody, script, execScript, execInstr, initState, hid, hf, hbv, hcc, statusBefore, List.get?]
  | checkoutWork =>
    refine ⟨11, 12, by omega, ?_, ?_⟩ <;>
      simp [main, tryBody, script, execScript, execInstr, initState, hid, hf, hbv, hcc, statusBefore, List.get?]
  | upgradeProject =>
    refine ⟨13, 14, by omega, ?_, ?_⟩ <;>
      simp [main, tryBody, script, execScript, execInstr, initState, hid, hf, hbv, hcc, statusBefore, List.get?]
  | gitAdd =>
    refine ⟨15, 16, by omega, ?_, ?_⟩ <;>
      simp [main, tryBody, script, execScript, execInstr, initState, hid, hf, hbv, hcc, statusBefore, List.get?]
  | gitCommit =>
    refine ⟨17, 18, by omega, ?_, ?_⟩ <;>
      simp [main, tryBody, script, execScript, execInstr, initState, hid, hf, hbv, hcc, statusBefore, List.get?]
  | gitPush =>
    refine ⟨19, 20, by omega, ?_, ?_⟩ <;>
      simp [main, tryBody, script, execScript, execInstr, initState, hid, hf, hbv, hcc, statusBefore, List.get?]
  | starRepo =>
    refine ⟨21, 22, by omega, ?_, ?_⟩ <;>
      simp [main, tryBody, script, execScript, execInstr, initState, hid, hf, hbv, hcc, statusBefore, List.get?]
  | pullsCreate =>
    refine ⟨23, 24, by omega, ?_, ?_⟩ <;>
      simp [main, tryBody, script, execScript, execInstr, initState, hid, hf, hbv, hcc, statusBefore, List.get?]

/-- Witness for C9 at the scenario run failing in the transformation step:
the write of Upgrade precedes the transformation call in the trace, and the
row ends with lastStatus = Upgrade. -/
theorem c9_write_before_action_witness :
    (∃ ent, Table.find (main cEnvU cOpts []).1.table ("acme", "r1") = some ent ∧
      ent.status = some Status.error.toInt ∧
      ent.lastStatus = some (statusBefore .upgradeProject).toInt) ∧
    ∃ n m, n < m ∧
      (main cEnvU cOpts []).1.events.get? n =
        some (Event.mergeWrite ("acme", "r1") (statusEntry (statusBefore .upgradeProject))) ∧
      (main cEnvU cOpts []).1.events.get? m = some (Event.action .upgradeProject) :=
  c9_write_before_action cEnvU cOpts [] .upgradeProject "r1"
    (by decide) (by decide) (by decide) (by decide) (by decide)

/-- Claim C3: in every fully successful run supplied with a run-id, the
ledger writes record lastStatus strictly progressing through every
enumerated status value in order, Auth through Done, with no value skipped
or repeated out of order, and the run returns the pull-request url. -/
theorem c3_success_progression (env : Env) (o : Options) (t : Table) (i : String)
    (c : Commit) (cs : List Commit)
    (hid : effId o = some i) (hf : env.faults = []) (hc : env.commits = c :: cs) :
    writtenLastStatuses (main env o t).1.events = successStatuses.map Status.toInt ∧
    (main env o t).2 = .ok env.prUrl := by
  cases hbv : (resolvedBranch o != "") <;>
    simp [main, tryBody, script, execScript, execInstr, initState, hid, hf, hbv, hc,
      writtenLastStatuses, successStatuses, statusEntry, initEntry, Status.toInt]

/-- Witness for C3 at the concrete fully successful run: the recorded
lastStatus sequence is 0 through 11 in order. -/
theorem c3_success_progression_witness :
    writtenLastStatuses (main cEnvOk cOpts []).1.events = successStatuses.map Status.toInt ∧
    (main cEnvOk cOpts []).2 = .ok cEnvOk.prUrl :=
  c3_success_progression cEnvOk cOpts [] "r1" ⟨"cafebabe12"⟩ []
    (by decide) (by decide) (by decide)

/-- Claim C10: the working-branch derivation is not total: with an empty
commit log the tree identifier is undefined and slicing it raises a runtime
type error before the branch-creation step ever runs (no gitBranch action
appears in the trace), and the failure is handled like any other step
failure: with a run-id present the row ends with status = Error (and
lastStatus = Branch, the value written before the failing phase). -/
theorem c10_empty_log (env : Env) (o : Options) (t : Table) (i : String)
    (hid : effId o = some i) (hf : env.faults = []) (hc : env.commits = []) :
    (main env o t).2 = .error .typeError ∧
    Event.action .gitBranch ∉ (main env o t).1.events ∧
    ∃ ent, Table.find (main env o t).1.table (o.owner, i) = some ent ∧
      ent.status = some Status.error.toInt ∧
      ent.lastStatus = some Status.branch.toInt := by
  cases hbv : (resolvedBranch o != "") <;>
    simp [main, tryBody, script, execScript, execInstr, initState, hid, hf, hbv, hc,
      insertOrMergeStatus, insertOrMergeStatusWithoutLast, mergeEntity, mergeField,
      statusEntry, statusEntryWithoutLast, initEntry, Status.toInt]

/-- Witness for C10 at the concrete run over an empty commit log. -/
theorem c10_empty_log_witness :
    (main cEnvNoLog cOpts []).2 = .error .typeError ∧
    Event.action .gitBranch ∉ (main cEnvNoLog cOpts []).1.events ∧
    ∃ ent, Table.find (main cEnvNoLog cOpts []).1.table ("acme", "r1") = some ent ∧
      ent.status = some Status.error.toInt ∧
      ent.lastStatus = some Status.branch.toInt :=
  c10_empty_log cEnvNoLog cOpts [] "r1" (by decide) (by decide) (by decide)

/-- Claim C2: for every run supplied with a run-id, when a step raises an
error the orchestrator appends exactly one further ledger operation, a
merge-update whose entry sets status = Error and nothing else, so the row
keeps its pre-failure lastStatus and every run parameter unchanged, and the
run re-raises the same error to the caller. -/
theorem c2_error_write (env : Env) (o : Options) (t : Table) (i : String) (e : RunError)
    (hid : effId o = some i) (htb : (tryBody env o t).2 = some e) :
    (main env o t).2 = .error e ∧
    (main env o t).1.events =
      (tryBody env o t).1.events ++ [.mergeWrite (o.owner, i) (statusEntryWithoutLast .error)] ∧
    ∃ ent, Table.find (main env o t).1.table (o.owner, i) = some ent ∧
      ent.status = some Status.error.toInt ∧
      ent.lastStatus = (Table.find (tryBody env o t).1.table (o.owner, i)).bind Entity.lastStatus ∧
      ent.owner = (Table.find (tryBody env o t).1.table (o.owner, i)).bind Entity.owner ∧
      ent.repo = (Table.find (tryBody env o t).1.table (o.owner, i)).bind Entity.repo ∧
      ent.branch = (Table.find (tryBody env o t).1.table (o.owner, i)).bind Entity.branch ∧
      ent.version = (Table.find (tryBody env o t).1.table (o.owner, i)).bind Entity.version := by
  rcases h : tryBody env o t with ⟨s, r⟩
  rw [h] at htb
  cases r with
  | none => simp at htb
  | some e' =>
    have he : e' = e := by simpa using htb
    subst he
    simp only [main, h, hid]
    refine ⟨by trivial, by simp, ?_⟩
    cases hfind : Table.find s.table (o.owner, i) <;>
      simp [insertOrMergeStatusWithoutLast, hfind, mergeEntity, mergeField,
        statusEntryWithoutLast, Status.toInt]

/-- Witness for C2 at the concrete run whose transformation step throws. -/
theorem c2_error_write_witness :
    (main cEnvU cOpts []).2 = .error (.actionFailure .upgradeProject) ∧
    (main cEnvU cOpts []).1.events =
      (tryBody cEnvU cOpts []).1.events ++
        [.mergeWrite ("acme", "r1") (statusEntryWithoutLast .error)] ∧
    ∃ ent, Table.find (main cEnvU cOpts []).1.table ("acme", "r1") = some ent ∧
      ent.status = some Status.error.toInt ∧
      ent.lastStatus = (Table.find (tryBody cEnvU cOpts []).1.table ("acme", "r1")).bind Entity.lastStatus ∧
      ent.owner = (Table.find (tryBody cEnvU cOpts []).1.table ("acme", "r1")).bind Entity.owner ∧
      ent.repo = (Table.find (tryBody cEnvU cOpts []).1.table ("acme", "r1")).bind Entity.repo ∧
      ent.branch = (Table.find (tryBody cEnvU cOpts []).1.table ("acme", "r1")).bind Entity.branch ∧
      ent.version = (Table.find (tryBody cEnvU cOpts []).1.table ("acme", "r1")).bind Entity.version :=
  c2_error_write cEnvU cOpts [] "r1" (.actionFailure .upgradeProject) (by decide) (by decide)

/-- Executing a concatenated script runs the first part and, when it did
not raise, continues with the second part from the reached state. -/
theorem execScript_append (env : Env) (o : Options) (l1 l2 : List Instr) (s : St) :
    execScript env o (l1 ++ l2) s =
      match execScript env o l1 s with
      | (s', none) => execScript env o l2 s'
      | (s', some e) => (s', some e) := by
  induction l1 generalizing s with
  | nil => simp [execScript]
  | cons instr rest ih =>
    rcases h : execInstr env o instr s with ⟨s', r⟩
    cases r <;> simp [execScript, h, ih]

/-- A run with a run id whose ledger is a single row at its own key keeps
the ledger a single row at that key throughout script execution. -/
theorem exec_single_row (env : Env) (o : Options) (i : String) (hid : effId o = some i) :
    ∀ (instrs : List Instr) (s : St) (ent0 : Entity),
      s.table = [((o.owner, i), ent0)] →
      ∃ ent1, (execScript env o instrs s).1.table = [((o.owner, i), ent1)] := by
  intro instrs
  induction instrs with
  | nil =>
    intro s ent0 hs
    exact ⟨ent0, by simpa [execScript] using hs⟩
  | cons instr rest ih =>
    intro s ent0 hs
    cases instr with
    | run a =>
      by_cases hfa : a ∈ env.faults
      · exact ⟨ent0, by simpa [execScript, execInstr, hfa] using hs⟩
      · have h := ih { s with events := s.events ++ [.action a] } ent0 (by simpa using hs)
        simpa [execScript, execInstr, hfa] using h
    | runIf c a =>
      cases c with
      | false =>
        have h := ih s ent0 hs
        simpa [execScript, execInstr] using h
      | true =>
        by_cases hfa : a ∈ env.faults
        · exact ⟨ent0, by simpa [execScript, execInstr, hfa] using hs⟩
        · have h := ih { s with events := s.events ++ [.action a] } ent0 (by simpa using hs)
          simpa [execScript, execInstr, hfa] using h
    | writeStatus st =>
      have htab : insertOrMergeStatus s.table i o.owner st =
          [((o.owner, i), mergeEntity ent0 (statusEntry st))] := by
        rw [hs]
        simp [insertOrMergeStatus, insertOrMergeEntity]
      have h := ih
        { s with events := s.events ++ [.mergeWrite (o.owner, i) (statusEntry st)]
                 table := insertOrMergeStatus s.table i o.owner st }
        (mergeEntity ent0 (statusEntry st)) (by simpa using htab)
      simpa [execScript, execInstr, hid] using h
    | computeSha =>
      cases hcm : env.commits.head? with
      | none => exact ⟨ent0, by simpa [execScript, execInstr, hcm] using hs⟩
      | some c =>
        have h := ih { s with workBranch := some (branchName c.tree) } ent0 (by simpa using hs)
        simpa [execScript, execInstr, hcm] using h

/-- A run with a run id starting from the empty ledger ends with the ledger
holding exactly one row, its own. -/
theorem main_single_row (env : Env) (o : Options) (i : String) (hid : effId o = some i) :
    ∃ ent, (main env o []).1.table = [((o.owner, i), ent)] := by
  have hinit : (initState env o []).table = [((o.owner, i), initEntry env o)] := by
    simp [initState, hid, insertOrReplaceEntity]
  obtain ⟨ent1, h1⟩ :=
    exec_single_row env o i hid (script (resolvedBranch o != "")) (initState env o [])
      (initEntry env o) hinit
  rcases htb : tryBody env o [] with ⟨s, r⟩
  have hst : s.table = [((o.owner, i), ent1)] := by
    have h2 : (tryBody env o []).1.table = [((o.owner, i), ent1)] := h1
    rw [htb] at h2
    exact h2
  cases r with
  | none => exact ⟨ent1, by simpa [main, htb] using hst⟩
  | some e =>
    refine ⟨mergeEntity ent1 (statusEntryWithoutLast .error), ?_⟩
    simp [main, htb, hid, insertOrMergeStatusWithoutLast, hst, insertOrMergeEntity]

/-- A run with a run id starting from the empty ledger always leaves its row
with the terminal status of its own settled outcome: Done when main
resolved with the pull-request url, Error when it rejected. -/
theorem main_terminal_status (env : Env) (o : Options) (i : String) (hid : effId o = some i) :
    ∃ ent, Table.find (main env o []).1.table (o.owner, i) = some ent ∧
      ent.status = some (terminalOf (main env o []).2).toInt := by
  rcases htb : tryBody env o [] with ⟨s, r⟩
  cases r with
  | some e =>
    simp only [main, htb, hid]
    cases hfind : Table.find s.table (o.owner, i) <;>
      simp [insertOrMergeStatusWithoutLast, hfind, mergeEntity, mergeField,
        statusEntryWithoutLast, terminalOf, Status.toInt]
  | none =>
    have htb' : execScript env o (script (resolvedBranch o != "")) (initState env o []) =
        (s, none) := htb
    have hsp : script (resolvedBranch o != "") =
        (script (resolvedBranch o != "")).dropLast ++ [Instr.writeStatus Status.done] := rfl
    rw [hsp, execScript_append] at htb'
    rcases hpre : execScript env o (script (resolvedBranch o != "")).dropLast (initState env o [])
      with ⟨s1, r1⟩
    rw [hpre] at htb'
    cases r1 with
    | some e1 => simp at htb'
    | none =>
      have hs : s = { s1 with
          events := s1.events ++ [.mergeWrite (o.owner, i) (statusEntry .done)]
          table := insertOrMergeStatus s1.table i o.owner .done } := by
        simp [execScript, execInstr, hid] at htb'
        exact htb'.symm
      simp only [main, htb]
      rw [hs]
      cases hfind : Table.find s1.table (o.owner, i) <;>
        simp [insertOrMergeStatus, hfind, mergeEntity, mergeField, statusEntry,
          terminalOf, Status.toInt]

/-- Claim C4: when the deadline guard timer elapses before the orchestrated
run completes, the caller receives an empty result (ok none, not an error),
the steps of the run are not cancelled: the final state is exactly that of
the complete run of main, and the ledger row of the run (started on a fresh
ledger) ends with the terminal status of the true outcome of main, as a
subsequent status query observes. -/
theorem c4_timeout_behavior (env : Env) (o : Options) (i : String) (hid : effId o = some i) :
    (∀ t, (worker env o true t).2 = .ok none ∧ (worker env o true t).1 = (main env o t).1) ∧
    ∃ ent, statusQueryTrigger (worker env o true []).1.table i = some ent ∧
      ent.status = some (terminalOf (main env o []).2).toInt := by
  have hworker : ∀ t, worker env o true t = ((main env o t).1, .ok none) := by
    intro t
    rcases h : main env o t with ⟨s, r⟩
    simp [worker, h]
  refine ⟨fun t => by rw [hworker t]; exact ⟨rfl, rfl⟩, ?_⟩
  obtain ⟨ent1, h1⟩ := main_single_row env o i hid
  obtain ⟨ent, hfind, hstat⟩ := main_terminal_status env o i hid
  rw [h1] at hfind
  have hent : ent1 = ent := by simpa [Table.find] using hfind
  subst hent
  refine ⟨ent1, ?_, hstat⟩
  rw [hworker, h1]
  simp [statusQueryTrigger, queryEntities]

/-- Witness for C4 at the concrete fully successful run: the timed-out
caller sees ok none while the ledger row reaches the Done terminal. -/
theorem c4_timeout_behavior_witness :
    (worker cEnvOk cOpts true []).2 = .ok none ∧
    ∃ ent, statusQueryTrigger (worker cEnvOk cOpts true []).1.table "r1" = some ent ∧
      ent.status = some (terminalOf (main cEnvOk cOpts []).2).toInt := by
  have h := c4_timeout_behavior cEnvOk cOpts "r1" (by decide)
  exact ⟨(h.1 []).1, h.2⟩

end TsUpgrade
